import Mathlib

/-!
Verification of the inspection-checklist single-page application
(source: src/src/App.tsx).

The development shallowly embeds the pure core of the application:
  * the data model (HeaderForm, SectionForm, VisibilityMap, FormState),
  * the visibility normalizer patchedVisibility,
  * the row projector toSheetRows,
  * the point-label display transform displayPointLabel,
  * the numeric-input sanitizer of NumberField,
  * the date-keyed archive store (readArchive / writeArchive /
    listArchiveDates and the save / load handlers).

TypeScript partial records are embedded as functions into Option;
JavaScript string values are Lean String; the browser localStorage and the
JSON codec are abstracted by an explicit store state, since the
application treats them as an opaque get/set string store.
-/

/-! # Data model (App.tsx lines 23-226) -/

/-- The four process stages (SECTION_DEFS keys, App.tsx lines 29-36). -/
inductive SectionKey where
  | influent
  | aerobic_upper
  | aerobic_lower
  | effluent
deriving DecidableEq

/-- The ten per-section field names (type SectionForm, App.tsx lines 55-68). -/
inductive FieldKey where
  | odor
  | color
  | temp
  | turbidity
  | pH
  | DO
  | residualChlorine
  | headLoss
  | aeration
  | comment
deriving DecidableEq

/-- One entry of SECTION_DEFS: a stage key and its Japanese label. -/
structure SectionDef where
  key : SectionKey
  label : String

/-- App.tsx lines 29-34. -/
def SECTION_DEFS : List SectionDef :=
  [⟨SectionKey.influent, "流入水"⟩,
   ⟨SectionKey.aerobic_upper, "好気性ろ床 上部"⟩,
   ⟨SectionKey.aerobic_lower, "好気性ろ床 下部・処理水"⟩,
   ⟨SectionKey.effluent, "放流水"⟩]

/-- App.tsx line 39: the stages that carry point (NO.x-y) sub-records. -/
def POINT_SECTIONS : List SectionKey :=
  [SectionKey.aerobic_upper, SectionKey.aerobic_lower]

/-- App.tsx lines 71-82: display names, shared with the Excel rows. -/
def FIELD_LABEL : FieldKey → String
  | .odor => "臭気"
  | .color => "色相"
  | .temp => "水温(℃)"
  | .turbidity => "透視度"
  | .pH => "pH"
  | .DO => "DO(mg/L)"
  | .residualChlorine => "残塩(mg/L)"
  | .headLoss => "ろ抗高"
  | .aeration => "送気量"
  | .comment => "備考"

/-- App.tsx lines 84-95. -/
def FIELD_ORDER : List FieldKey :=
  [.odor, .color, .temp, .turbidity, .pH, .DO,
   .residualChlorine, .headLoss, .aeration, .comment]

/-- App.tsx lines 98-108: point-table columns (comment excluded). -/
def POINT_FIELD_ORDER : List FieldKey :=
  [.odor, .color, .temp, .turbidity, .pH, .DO,
   .residualChlorine, .headLoss, .aeration]

/-- App.tsx lines 42-53 (HeaderForm); the weather enum and the numeric
fields are all strings in the source. -/
structure HeaderForm where
  date : String
  weekday : String
  weather : String
  airTemp : String
  primarySettlingNo1 : String
  primarySettlingNo2 : String
  pacRemaining : String
  elutionPH : String
  elutionTemp : String
  waterContent : String

/-- SectionForm (App.tsx lines 55-66): a partial record of optional string
readings, embedded as a function into Option. -/
def SectionForm : Type := FieldKey → Option String

/-- VisibilityMap (App.tsx line 110): per stage a partial record of
booleans. -/
def VisibilityMap : Type := SectionKey → FieldKey → Option Bool

/-- PointDataMap (App.tsx line 182): point label to partial SectionForm. -/
def PointDataMap : Type := String → Option SectionForm

/-- FormState (App.tsx lines 184-191). The pointData object only carries
keys for the point-bearing stages, hence the Option. -/
structure FormState where
  header : HeaderForm
  sections : SectionKey → SectionForm
  points : List String
  pointData : SectionKey → Option PointDataMap
  visibility : VisibilityMap
  extraNote : String

/-- App.tsx lines 113-162: the hardcoded default visibility map.  Every
stage lists all ten fields, several of them explicitly false. -/
def DEFAULT_VISIBILITY : VisibilityMap := fun sk fk =>
  some (match sk, fk with
    | .influent, .odor => true
    | .influent, .color => true
    | .influent, .temp => true
    | .influent, .turbidity => true
    | .influent, .pH => true
    | .influent, .DO => true
    | .influent, .residualChlorine => false
    | .influent, .headLoss => false
    | .influent, .aeration => false
    | .influent, .comment => false
    | .aerobic_upper, .odor => true
    | .aerobic_upper, .color => true
    | .aerobic_upper, .temp => true
    | .aerobic_upper, .turbidity => true
    | .aerobic_upper, .pH => true
    | .aerobic_upper, .DO => true
    | .aerobic_upper, .residualChlorine => false
    | .aerobic_upper, .headLoss => true
    | .aerobic_upper, .aeration => false
    | .aerobic_upper, .comment => false
    | .aerobic_lower, .odor => true
    | .aerobic_lower, .color => true
    | .aerobic_lower, .temp => true
    | .aerobic_lower, .turbidity => true
    | .aerobic_lower, .pH => true
    | .aerobic_lower, .DO => true
    | .aerobic_lower, .residualChlorine => false
    | .aerobic_lower, .headLoss => false
    | .aerobic_lower, .aeration => true
    | .aerobic_lower, .comment => false
    | .effluent, .odor => true
    | .effluent, .color => true
    | .effluent, .temp => true
    | .effluent, .turbidity => true
    | .effluent, .pH => true
    | .effluent, .DO => true
    | .effluent, .residualChlorine => true
    | .effluent, .headLoss => false
    | .effluent, .aeration => false
    | .effluent, .comment => false)

/-- App.tsx lines 165-178: merge a possibly absent stored VisibilityMap
over the defaults (stored keys win), then force odor and color of the two
point-bearing stages to visible. -/
def patchedVisibility (vis : Option VisibilityMap) : VisibilityMap :=
  fun sk fk =>
    let merged : Option Bool :=
      match vis with
      | some m =>
        match m sk fk with
        | some b => some b
        | none => DEFAULT_VISIBILITY sk fk
      | none => DEFAULT_VISIBILITY sk fk
    if (sk = SectionKey.aerobic_upper ∨ sk = SectionKey.aerobic_lower) ∧
        (fk = FieldKey.odor ∨ fk = FieldKey.color) then
      some true
    else merged

/-- The value the input map assigns (if any); an absent whole map assigns
nothing. -/
def inputAt (vis : Option VisibilityMap) (sk : SectionKey) (fk : FieldKey) :
    Option Bool :=
  match vis with
  | some m => m sk fk
  | none => none

/-- App.tsx lines 352-355: a field is visible unless explicitly false. -/
def isFieldVisible (vis : FieldKey → Option Bool) (k : FieldKey) : Bool :=
  if vis k = some false then false else true

/-- App.tsx lines 245-248: label.replace(regex for an initial NO. , "No.").
The anchored regex rewrites the three leading characters N O . when they
are present and leaves every other label unchanged. -/
def displayPointLabel (label : String) : String :=
  match label.data with
  | 'N' :: 'O' :: '.' :: rest => String.mk ('N' :: 'o' :: '.' :: rest)
  | _ => label

/-! # Row projector toSheetRows (App.tsx lines 358-415) -/

/-- The empty object used for f.pointData[key] falling back to {}. -/
def EMPTY_PDM : PointDataMap := fun _ => none

/-- The empty object used for pd[label] falling back to {}. -/
def EMPTY_REC : SectionForm := fun _ => none

/-- App.tsx lines 383-388: the direct label/value rows of a non-point
stage; an undefined or empty stored value renders as the empty string. -/
def directFieldRows (f : FormState) (key : SectionKey) : List (List String) :=
  (FIELD_ORDER.filter (fun k => isFieldVisible (f.visibility key) k)).map
    (fun k => [FIELD_LABEL k, (f.sections key k).getD ""])

/-- App.tsx line 392: the visible point-table columns. -/
def visCols (f : FormState) (key : SectionKey) : List FieldKey :=
  POINT_FIELD_ORDER.filter (fun k => isFieldVisible (f.visibility key) k)

/-- App.tsx lines 398-401: one point row; the record is looked up under
the original label, only the first cell is display-transformed, and a
missing record or missing field renders as the empty string. -/
def pointRow (f : FormState) (key : SectionKey) (label : String) : List String :=
  displayPointLabel label ::
    (visCols f key).map
      (fun k => ((((f.pointData key).getD EMPTY_PDM) label).getD EMPTY_REC k).getD "")

/-- App.tsx lines 391-404: the point sub-table, emitted only when at least
one column is visible. -/
def pointTable (f : FormState) (key : SectionKey) : List (List String) :=
  if visCols f key = [] then []
  else
    ("ポイント" :: (visCols f key).map FIELD_LABEL) ::
      f.points.map (fun label => pointRow f key label)

/-- App.tsx lines 375-407: one loop iteration of toSheetRows — the title
row, the direct rows (suppressed for the two aerobic stages), the point
sub-table (for the point-bearing stages), and the single separator row. -/
def sectionRows (f : FormState) (d : SectionDef) : List (List String) :=
  ["【" ++ d.label ++ "】"] ::
    ((if d.key = SectionKey.aerobic_upper ∨ d.key = SectionKey.aerobic_lower then
        []
      else directFieldRows f d.key) ++
     (if POINT_SECTIONS.contains d.key then pointTable f d.key else []) ++
     [[""]])

/-- App.tsx lines 358-415: the full row projection.  The header block
(lines 362-372), the four stage blocks in declaration order, and the free
note block (lines 410-412; the disjunction with the empty string there is
the identity on strings). -/
def toSheetRows (f : FormState) : List (List String) :=
  ([["日付", f.header.date],
    ["曜日", f.header.weekday],
    ["天候", f.header.weather],
    ["外気温(℃)", f.header.airTemp],
    ["初沈界面 NO.1(m)", f.header.primarySettlingNo1],
    ["初沈界面 NO.2(m)", f.header.primarySettlingNo2],
    ["PAC残量(㎥)", f.header.pacRemaining],
    ["脱離液 pH", f.header.elutionPH],
    ["脱離液 水温(℃)", f.header.elutionTemp],
    ["含水率(%)", f.header.waterContent],
    [""]]) ++
  (SECTION_DEFS.map (fun d => sectionRows f d)).flatten ++
  [["【自由記入 備考】"], ["備考", f.extraNote], [""]]

/-! # Numeric-input sanitizer (NumberField, App.tsx lines 983-992) -/

/-- The characters the first regex of sanitize keeps: digits, the decimal
point and the minus sign. -/
def allowedChar (c : Char) : Bool := c.isDigit || c == '.' || c == '-'

/-- App.tsx lines 986-987: without allowNegative every minus is removed;
with allowNegative the global regex removes every minus not at the very
start of the string. -/
def dropMinus (allowNegative : Bool) (cs : List Char) : List Char :=
  if allowNegative then
    match cs with
    | [] => []
    | c :: rest => c :: rest.filter (fun c' => !(c' == '-'))
  else cs.filter (fun c' => !(c' == '-'))

/-- JavaScript String.prototype.split on the one-character separator. -/
def splitOnDot : List Char → List (List Char)
  | [] => [[]]
  | c :: rest =>
    if c = '.' then [] :: splitOnDot rest
    else
      match splitOnDot rest with
      | p :: ps => (c :: p) :: ps
      | [] => [[c]]

/-- App.tsx lines 989-990: when the split has more than two parts the
string is rebuilt as first part, one dot, the remaining parts joined with
the empty separator. -/
def collapseDots (cs : List Char) : List Char :=
  if (splitOnDot cs).length > 2 then
    match splitOnDot cs with
    | [] => cs
    | p :: ps => p ++ '.' :: ps.flatten
  else cs

/-- App.tsx lines 983-992: the input filter of NumberField. -/
def sanitize (allowNegative : Bool) (raw : String) : String :=
  String.mk (collapseDots (dropMinus allowNegative (raw.data.filter allowedChar)))

/-- Modelled from the spec: collapse to at most one decimal point, keeping
the first one — a single left-to-right scan that drops every dot after the
first. Stated for comparison with the split/join implementation above. -/
def dropLaterDots : Bool → List Char → List Char
  | _, [] => []
  | seen, c :: cs =>
    if c = '.' then
      if seen then dropLaterDots true cs else '.' :: dropLaterDots true cs
    else c :: dropLaterDots seen cs

/-- Modelled from the spec: strip disallowed characters, keep at most a
single leading minus (none in non-negative mode), keep only the first
decimal point. -/
def sanitizeSpec (allowNegative : Bool) (raw : String) : String :=
  String.mk (dropLaterDots false (dropMinus allowNegative (raw.data.filter allowedChar)))

/-! # Archive store (App.tsx lines 222-243, 645-665)

localStorage and the JSON codec are external to the repository; they are
abstracted by an explicit store state.  The payload records whether the
archive slot is absent (getItem returns null), holds a malformed string
(JSON.parse throws) or holds a well-formed archive; `available = false`
models a storage backend whose getItem/setItem calls throw, and
`writeOk = false` models setItem throwing (quota exceeded) while reads
still work. -/

/-- ArchiveMap (App.tsx line 226): a JavaScript object, embedded as an
assoc list in key-insertion order with unique keys. -/
def ArchiveMap : Type := List (String × FormState)

/-- JavaScript property read a[d]. -/
def getKey : ArchiveMap → String → Option FormState
  | [], _ => none
  | (k, v) :: rest, d => if k = d then some v else getKey rest d

/-- JavaScript property write a[d] = s: replace in place, else append. -/
def setKey : ArchiveMap → String → FormState → ArchiveMap
  | [], d, s => [(d, s)]
  | (k, v) :: rest, d, s =>
    if k = d then (d, s) :: rest else (k, v) :: setKey rest d s

/-- The state of the archive slot of the backing string store. -/
inductive StorePayload where
  | absent
  | malformed
  | ok (a : ArchiveMap)

/-- The backing store together with its failure modes. -/
structure ArchiveStore where
  available : Bool
  writeOk : Bool
  payload : StorePayload

/-- App.tsx lines 228-235: parse the stored payload, falling back to the
empty map when the slot is empty, the payload is malformed, or the store
throws. -/
def readArchive (st : ArchiveStore) : ArchiveMap :=
  if st.available then
    match st.payload with
    | .ok a => a
    | _ => []
  else []

/-- App.tsx lines 236-240: persist the whole map; a throwing setItem is
swallowed and leaves the store unchanged. -/
def writeArchive (a : ArchiveMap) (st : ArchiveStore) : ArchiveStore :=
  if st.available && st.writeOk then { st with payload := .ok a } else st

/-- App.tsx lines 659-664 (the save handler): upsert the current form
under its header date and persist the whole map. -/
def onSave (st : ArchiveStore) (form : FormState) : ArchiveStore :=
  writeArchive (setKey (readArchive st) form.header.date form) st

/-- App.tsx lines 647-651 (the load handler): the snapshot looked up under
an exact date key. -/
def loadSnap (st : ArchiveStore) (d : String) : Option FormState :=
  getKey (readArchive st) d

/-- Code-unit-wise comparison of two character sequences, the comparison
underlying the argument-less JavaScript Array.prototype.sort on strings
(all archive keys of interest are ASCII, where code units and code points
agree). -/
def lexLe : List Char → List Char → Bool
  | [], _ => true
  | _ :: _, [] => false
  | a :: as, b :: bs =>
    if a.toNat < b.toNat then true
    else if b.toNat < a.toNat then false
    else lexLe as bs

/-- The sort order of Object.keys(...).sort() as a relation. -/
def strLe (a b : String) : Prop := lexLe a.data b.data = true

instance : DecidableRel strLe := fun a b =>
  inferInstanceAs (Decidable (lexLe a.data b.data = true))

/-- App.tsx lines 241-243: all stored date keys, sorted ascending and then
reversed. -/
def listArchiveDates (st : ArchiveStore) : List String :=
  (List.insertionSort strLe ((readArchive st).map Prod.fst)).reverse

/-! # Dates in YYYY-MM-DD form -/

/-- ASCII digit test used to characterise the fixed date format. -/
def isDig (c : Char) : Bool := decide (48 ≤ c.toNat) && decide (c.toNat ≤ 57)

/-- A character list of the exact shape YYYY-MM-DD. -/
def isYMDl : List Char → Bool
  | [y1, y2, y3, y4, s1, m1, m2, s2, d1, d2] =>
    isDig y1 && isDig y2 && isDig y3 && isDig y4 && (s1 == '-') &&
    isDig m1 && isDig m2 && (s2 == '-') && isDig d1 && isDig d2
  | _ => false

/-- A string in the fixed YYYY-MM-DD date format. -/
def isYMD (s : String) : Bool := isYMDl s.data

/-- The chronological value of a YYYY-MM-DD character list: its eight
digits read as one number, i.e. year * 10000 + month * 100 + day. -/
def dateVall : List Char → Nat
  | [y1, y2, y3, y4, _, m1, m2, _, d1, d2] =>
    (y1.toNat - 48) * 10000000 + (y2.toNat - 48) * 1000000 +
    (y3.toNat - 48) * 100000 + (y4.toNat - 48) * 10000 +
    (m1.toNat - 48) * 1000 + (m2.toNat - 48) * 100 +
    (d1.toNat - 48) * 10 + (d2.toNat - 48)
  | _ => 0

/-- The chronological value of a YYYY-MM-DD date string. -/
def dateValue (s : String) : Nat := dateVall s.data

/-! # Auxiliary definitions for the statements and proofs -/

/-- Rebuild a string split on dots (the inverse of splitOnDot). -/
def rejoin : List (List Char) → List Char
  | [] => []
  | [p] => p
  | p :: q :: qs => p ++ '.' :: rejoin (q :: qs)

/-- The Japanese label of a stage, as fixed by SECTION_DEFS. -/
def sectionLabel : SectionKey → String
  | .influent => "流入水"
  | .aerobic_upper => "好気性ろ床 上部"
  | .aerobic_lower => "好気性ろ床 下部・処理水"
  | .effluent => "放流水"

/-- A concrete header used by the witnesses. -/
def sampleHeader : HeaderForm :=
  ⟨"2024-05-01", "水", "晴", "20", "1.2", "1.3", "3", "7", "18", "80"⟩

/-- A concrete point-data map that stores a reading only under the
display-transformed key No.1-1 and nothing under the original NO.1-1. -/
def samplePD : PointDataMap := fun l =>
  if l = "No.1-1" then
    some (fun k => if k = FieldKey.odor then some "微 臭" else none)
  else none

/-- A concrete form state used by the witnesses. -/
def sampleForm : FormState where
  header := sampleHeader
  sections := fun _ => fun _ => some ""
  points := ["NO.1-1", "NO.1-2", "NO.2-1", "NO.2-2"]
  pointData := fun k =>
    if k = SectionKey.aerobic_upper then some samplePD else some EMPTY_PDM
  visibility := patchedVisibility none
  extraNote := "晴天"

/-- A healthy, empty backing store. -/
def sampleStore : ArchiveStore := ⟨true, true, .absent⟩

/-- A store whose backend throws on every access. -/
def downStore : ArchiveStore := ⟨false, true, .malformed⟩

/-- A healthy store holding two dated snapshots. -/
def dateStore : ArchiveStore :=
  ⟨true, true, .ok [("2024-05-01", sampleForm), ("2024-06-02", sampleForm)]⟩

/-- A visibility map that tries to hide everything. -/
def allFalseVis : VisibilityMap := fun _ _ => some false

/-! # Visibility normalizer: lemmas and claims C3, C4 -/

/-- Case characterisation of patchedVisibility: forced fields become true,
fields present in the input keep their value, absent fields fall back to
the hardcoded default. -/
theorem patchedVisibility_eq (v : Option VisibilityMap) (sk : SectionKey)
    (fk : FieldKey) :
    patchedVisibility v sk fk =
      if (sk = SectionKey.aerobic_upper ∨ sk = SectionKey.aerobic_lower) ∧
          (fk = FieldKey.odor ∨ fk = FieldKey.color) then some true
      else
        match inputAt v sk fk with
        | some b => some b
        | none => DEFAULT_VISIBILITY sk fk := by
  cases v <;> rfl

/-- patchedVisibility never leaves a field unset. -/
theorem patchedVisibility_isSome (v : Option VisibilityMap) (sk : SectionKey)
    (fk : FieldKey) : (patchedVisibility v sk fk).isSome = true := by
  rw [patchedVisibility_eq]
  split
  · rfl
  · cases h : inputAt v sk fk
    · exact rfl
    · rfl

/-- C3, counterexample: the claim that every field the input does not
explicitly set to false comes out visible is false — with no stored map at
all (so nothing is explicitly false), residualChlorine of the influent
stage is normalized to false, because the merge falls back to
DEFAULT_VISIBILITY, which hardcodes false there. -/
theorem spec_c3_counterexample :
    ¬ (∀ (v : Option VisibilityMap) (sk : SectionKey) (fk : FieldKey),
        inputAt v sk fk ≠ some false → patchedVisibility v sk fk = some true) := by
  intro h
  have hx := h none SectionKey.influent FieldKey.residualChlorine
    (by simp [inputAt])
  rw [patchedVisibility_eq] at hx
  simp [inputAt, DEFAULT_VISIBILITY] at hx

/-- C3, amended: patchedVisibility covers all 4 stages times 10 fields
(every field is set); a field the input explicitly sets keeps the set
value unless it is odor or color of a point-bearing stage (which are
forced true); a field absent from the input falls back to the hardcoded
DEFAULT_VISIBILITY value — not necessarily to visible. -/
theorem spec_c3_normalized (v : Option VisibilityMap) (sk : SectionKey)
    (fk : FieldKey) :
    (patchedVisibility v sk fk).isSome = true ∧
    (¬ ((sk = SectionKey.aerobic_upper ∨ sk = SectionKey.aerobic_lower) ∧
        (fk = FieldKey.odor ∨ fk = FieldKey.color)) →
      ∀ b : Bool, inputAt v sk fk = some b →
        patchedVisibility v sk fk = some b) ∧
    (¬ ((sk = SectionKey.aerobic_upper ∨ sk = SectionKey.aerobic_lower) ∧
        (fk = FieldKey.odor ∨ fk = FieldKey.color)) →
      inputAt v sk fk = none →
        patchedVisibility v sk fk = DEFAULT_VISIBILITY sk fk) ∧
    (((sk = SectionKey.aerobic_upper ∨ sk = SectionKey.aerobic_lower) ∧
        (fk = FieldKey.odor ∨ fk = FieldKey.color)) →
      patchedVisibility v sk fk = some true) := by
  refine ⟨patchedVisibility_isSome v sk fk, ?_, ?_, ?_⟩
  · intro h b hb
    rw [patchedVisibility_eq, if_neg h, hb]
  · intro h hb
    rw [patchedVisibility_eq, if_neg h, hb]
  · intro h
    rw [patchedVisibility_eq, if_pos h]

/-- C3, witness for the amended statement: with an empty input,
residualChlorine of influent falls back to its default (false), while
odor of aerobic_upper is forced true. -/
theorem spec_c3_normalized_witness :
    patchedVisibility none SectionKey.influent FieldKey.residualChlorine =
      DEFAULT_VISIBILITY SectionKey.influent FieldKey.residualChlorine ∧
    patchedVisibility none SectionKey.aerobic_upper FieldKey.odor = some true := by
  refine ⟨?_, ?_⟩
  · exact (spec_c3_normalized none SectionKey.influent
      FieldKey.residualChlorine).2.2.1 (by simp) rfl
  · exact (spec_c3_normalized none SectionKey.aerobic_upper
      FieldKey.odor).2.2.2 (by simp)

/-- C4: the normalizer is idempotent — normalizing an already normalized
map changes nothing — and odor and color of the two point-bearing stages
come out true even when the input explicitly sets them to false. -/
theorem spec_c4_idempotent_forced :
    (∀ v : Option VisibilityMap,
      patchedVisibility (some (patchedVisibility v)) = patchedVisibility v) ∧
    (∀ (v : Option VisibilityMap) (k : SectionKey),
      (k = SectionKey.aerobic_upper ∨ k = SectionKey.aerobic_lower) →
      patchedVisibility v k FieldKey.odor = some true ∧
      patchedVisibility v k FieldKey.color = some true) := by
  constructor
  · intro v
    funext sk fk
    rw [patchedVisibility_eq (some (patchedVisibility v))]
    by_cases h : (sk = SectionKey.aerobic_upper ∨ sk = SectionKey.aerobic_lower) ∧
        (fk = FieldKey.odor ∨ fk = FieldKey.color)
    · rw [if_pos h, patchedVisibility_eq v, if_pos h]
    · rw [if_neg h]
      show (match patchedVisibility v sk fk with
            | some b => some b
            | none => DEFAULT_VISIBILITY sk fk) = patchedVisibility v sk fk
      cases hp : patchedVisibility v sk fk with
      | some b => rfl
      | none =>
        have := patchedVisibility_isSome v sk fk
        rw [hp] at this
        cases this
  · intro v k hk
    constructor
    · rw [patchedVisibility_eq, if_pos ⟨hk, Or.inl rfl⟩]
    · rw [patchedVisibility_eq, if_pos ⟨hk, Or.inr rfl⟩]

/-- C4, witness: normalizing the already-normalized empty input again is a
no-op, and an input that hides everything still gets odor forced true on
aerobic_upper. -/
theorem spec_c4_witness :
    patchedVisibility (some (patchedVisibility none)) = patchedVisibility none ∧
    patchedVisibility (some allFalseVis) SectionKey.aerobic_upper
      FieldKey.odor = some true := by
  refine ⟨spec_c4_idempotent_forced.1 none, ?_⟩
  exact (spec_c4_idempotent_forced.2 (some allFalseVis) SectionKey.aerobic_upper
    (Or.inl rfl)).1

/-! # Point-label display transform: claim C9 -/

/-- C9: the transform rewrites exactly an initial NO. prefix (the three
leading characters N, O, dot) to No. and leaves every label that does not
start with that prefix unchanged. -/
theorem spec_c9_displayPointLabel (label : String) :
    (∀ rest : List Char, label.data = 'N' :: 'O' :: '.' :: rest →
      displayPointLabel label = String.mk ('N' :: 'o' :: '.' :: rest)) ∧
    ((∀ rest : List Char, label.data ≠ 'N' :: 'O' :: '.' :: rest) →
      displayPointLabel label = label) := by
  constructor
  · intro rest h
    unfold displayPointLabel
    rw [h]
    rfl
  · intro h
    unfold displayPointLabel
    split
    · rename_i rest heq
      exact absurd heq (h rest)
    · rfl

/-- C9, witness: NO.1-1 becomes No.1-1 while XNO.1 (prefix not at the
start) and No.1 (already lowercase, case-sensitive match) pass through. -/
theorem spec_c9_witness :
    displayPointLabel "NO.1-1" = "No.1-1" ∧
    displayPointLabel "XNO.1" = "XNO.1" ∧
    displayPointLabel "No.1" = "No.1" := by
  refine ⟨(spec_c9_displayPointLabel "NO.1-1").1 ['1', '-', '1'] rfl, ?_, ?_⟩
  · refine (spec_c9_displayPointLabel "XNO.1").2 ?_
    intro rest h
    have h' : ('X' :: 'N' :: 'O' :: '.' :: '1' :: ([] : List Char)) =
        'N' :: 'O' :: '.' :: rest := h
    injection h' with h1 _
    exact absurd h1 (by decide)
  · refine (spec_c9_displayPointLabel "No.1").2 ?_
    intro rest h
    have h' : ('N' :: 'o' :: '.' :: '1' :: ([] : List Char)) =
        'N' :: 'O' :: '.' :: rest := h
    injection h' with _ h2
    injection h2 with h3 _
    exact absurd h3 (by decide)

/-! # Sanitizer: lemmas and claim C8 -/

/-- splitOnDot always produces at least one part. -/
theorem splitOnDot_ne_nil (cs : List Char) : splitOnDot cs ≠ [] := by
  induction cs with
  | nil => simp [splitOnDot]
  | cons c rest ih =>
    unfold splitOnDot
    split
    · simp
    · cases h : splitOnDot rest with
      | nil => exact absurd h ih
      | cons p ps => simp

/-- Dropping dots with the flag already set removes every dot, i.e. it
flattens the split. -/
theorem dropLaterDots_true (cs : List Char) :
    dropLaterDots true cs = (splitOnDot cs).flatten := by
  induction cs with
  | nil => rfl
  | cons c rest ih =>
    unfold dropLaterDots splitOnDot
    by_cases hc : c = '.'
    · simp [hc, ih]
    · simp only [if_neg hc]
      cases h : splitOnDot rest with
      | nil => exact absurd h (splitOnDot_ne_nil rest)
      | cons p ps =>
        rw [h] at ih
        simp [ih, h]

/-- Dropping dots starting with a clear flag keeps the first part, one
dot, and the remaining parts with their dots removed. -/
theorem dropLaterDots_false (cs : List Char) :
    dropLaterDots false cs =
      match splitOnDot cs with
      | [] => []
      | p :: ps => if ps = [] then p else p ++ '.' :: ps.flatten := by
  induction cs with
  | nil => rfl
  | cons c rest ih =>
    unfold dropLaterDots splitOnDot
    by_cases hc : c = '.'
    · simp only [if_pos hc, if_neg (Bool.false_ne_true)]
      cases h : splitOnDot rest with
      | nil => exact absurd h (splitOnDot_ne_nil rest)
      | cons p ps =>
        simp [hc, dropLaterDots_true, h]
    · simp only [if_neg hc]
      cases h : splitOnDot rest with
      | nil => exact absurd h (splitOnDot_ne_nil rest)
      | cons p ps =>
        rw [h] at ih
        by_cases hps : ps = [] <;> simp [h, hps, ih]

/-- splitOnDot loses no information: interleaving its parts with dots
rebuilds the input. -/
theorem rejoin_splitOnDot (cs : List Char) : rejoin (splitOnDot cs) = cs := by
  induction cs with
  | nil => rfl
  | cons c rest ih =>
    unfold splitOnDot
    by_cases hc : c = '.'
    · simp only [if_pos hc]
      cases h : splitOnDot rest with
      | nil => exact absurd h (splitOnDot_ne_nil rest)
      | cons p ps =>
        rw [h] at ih
        subst hc
        rw [rejoin]
        simp [ih]
    · simp only [if_neg hc]
      cases h : splitOnDot rest with
      | nil => exact absurd h (splitOnDot_ne_nil rest)
      | cons p ps =>
        rw [h] at ih
        cases ps with
        | nil =>
          rw [rejoin] at ih
          simp [rejoin, ih]
        | cons q qs =>
          rw [rejoin] at ih
          simp only [rejoin]
          rw [← ih]
          simp

/-- The split/join dot collapsing of the source equals the left-to-right
first-dot scan. -/
theorem collapseDots_eq (cs : List Char) :
    collapseDots cs = dropLaterDots false cs := by
  rw [dropLaterDots_false]
  unfold collapseDots
  cases h : splitOnDot cs with
  | nil => exact absurd h (splitOnDot_ne_nil cs)
  | cons p ps =>
    have hre : rejoin (p :: ps) = cs := by rw [← h]; exact rejoin_splitOnDot cs
    cases ps with
    | nil =>
      rw [rejoin] at hre
      simp [← hre]
    | cons q qs =>
      cases qs with
      | nil =>
        rw [rejoin, rejoin] at hre
        simp only [if_neg (by simp : ¬([p, q] : List (List Char)).length > 2)]
        simp [← hre]
      | cons r rs =>
        rw [if_pos (by simp)]
        simp

/-- dropLaterDots only removes characters. -/
theorem dropLaterDots_sublist (seen : Bool) (cs : List Char) :
    (dropLaterDots seen cs).Sublist cs := by
  induction cs generalizing seen with
  | nil => simp [dropLaterDots]
  | cons c rest ih =>
    unfold dropLaterDots
    by_cases hc : c = '.'
    · by_cases hs : seen = true
      · simp only [if_pos hc, hs, if_pos rfl]
        exact (ih true).cons c
      · subst hc
        simp only [if_pos rfl, if_neg hs]
        exact (ih true).cons₂ '.'
    · simp only [if_neg hc]
      exact (ih seen).cons₂ c

/-- dropMinus only removes characters. -/
theorem dropMinus_sublist (b : Bool) (cs : List Char) :
    (dropMinus b cs).Sublist cs := by
  unfold dropMinus
  cases b with
  | false => simp [List.filter_sublist cs]
  | true =>
    cases cs with
    | nil => simp
    | cons c rest => simp [(List.filter_sublist rest).cons₂ c]

/-- dropLaterDots with the flag set yields no dot at all. -/
theorem count_dot_dropLaterDots_true (cs : List Char) :
    (dropLaterDots true cs).count '.' = 0 := by
  induction cs with
  | nil => rfl
  | cons c rest ih =>
    unfold dropLaterDots
    by_cases hc : c = '.'
    · simpa [hc] using ih
    · simpa [List.count_cons, hc] using ih

/-- dropLaterDots with a clear flag yields at most one dot. -/
theorem count_dot_dropLaterDots_false (cs : List Char) :
    (dropLaterDots false cs).count '.' ≤ 1 := by
  induction cs with
  | nil => simp [dropLaterDots]
  | cons c rest ih =>
    unfold dropLaterDots
    by_cases hc : c = '.'
    · simp [hc, List.count_cons, count_dot_dropLaterDots_true]
    · simpa [List.count_cons, hc] using ih

/-- The characters surviving dropMinus in non-negative mode contain no
minus. -/
theorem count_minus_dropMinus_false (cs : List Char) :
    (dropMinus false cs).count '-' = 0 := by
  unfold dropMinus
  simp [List.count_eq_zero, List.mem_filter]

/-- C8: the sanitizer agrees with its specification (strip disallowed
characters, keep at most a single leading minus — none at all in
non-negative mode — and keep only the first decimal point); every
surviving character is a digit, a dot or a minus; at most one dot
survives; non-negative mode leaves no minus; negative mode leaves a minus
at most in leading position; and non-negative sanitization of
"12.3.4abc" yields "12.34". -/
theorem spec_c8_sanitize :
    (∀ (b : Bool) (raw : String), sanitize b raw = sanitizeSpec b raw) ∧
    (∀ (b : Bool) (raw : String) (c : Char),
      c ∈ (sanitize b raw).data → allowedChar c = true) ∧
    (∀ (b : Bool) (raw : String), (sanitize b raw).data.count '.' ≤ 1) ∧
    (∀ raw : String, (sanitize false raw).data.count '-' = 0) ∧
    (∀ raw : String, (sanitize true raw).data.tail.count '-' = 0) ∧
    sanitize false "12.3.4abc" = "12.34" := by
  have hdata : ∀ (b : Bool) (raw : String),
      (sanitize b raw).data =
        dropLaterDots false (dropMinus b (raw.data.filter allowedChar)) := by
    intro b raw
    show (collapseDots (dropMinus b (raw.data.filter allowedChar))) = _
    exact collapseDots_eq _
  refine ⟨?_, ?_, ?_, ?_, ?_, by decide⟩
  · intro b raw
    show String.mk (collapseDots _) = String.mk (dropLaterDots false _)
    rw [collapseDots_eq]
  · intro b raw c hc
    rw [hdata] at hc
    have h1 : c ∈ dropMinus b (raw.data.filter allowedChar) :=
      (dropLaterDots_sublist false _).mem hc
    have h2 : c ∈ raw.data.filter allowedChar :=
      (dropMinus_sublist b _).mem h1
    exact (List.mem_filter.mp h2).2
  · intro b raw
    rw [hdata]
    exact count_dot_dropLaterDots_false _
  · intro raw
    rw [hdata]
    have hs := (dropLaterDots_sublist false
      (dropMinus false (raw.data.filter allowedChar))).count_le '-'
    have h0 := count_minus_dropMinus_false (raw.data.filter allowedChar)
    omega
  · intro raw
    rw [hdata]
    cases hf : raw.data.filter allowedChar with
    | nil => simp [dropMinus, dropLaterDots]
    | cons c rest =>
      have hdm : dropMinus true (c :: rest) =
          c :: rest.filter (fun c' => !(c' == '-')) := rfl
      rw [hdm]
      have hrest : (rest.filter (fun c' => !(c' == '-'))).count '-' = 0 := by
        simp [List.count_eq_zero, List.mem_filter]
      unfold dropLaterDots
      by_cases hc : c = '.'
      · simp only [if_pos hc, if_neg (Bool.false_ne_true), List.tail_cons]
        have := (dropLaterDots_sublist true
          (rest.filter (fun c' => !(c' == '-')))).count_le '-'
        omega
      · simp only [if_neg hc, List.tail_cons]
        have := (dropLaterDots_sublist false
          (rest.filter (fun c' => !(c' == '-')))).count_le '-'
        omega

/-- C8, witness: discharging the membership hypothesis at the digit 1 of
the end-to-end example. -/
theorem spec_c8_witness :
    allowedChar '1' = true ∧
    (sanitize false "12.3.4abc").data.count '.' ≤ 1 := by
  refine ⟨?_, spec_c8_sanitize.2.2.1 false "12.3.4abc"⟩
  exact spec_c8_sanitize.2.1 false "12.3.4abc" '1' (by decide)

/-! # Row projector: lemmas and claims C1, C2, C10 -/

/-- Every direct field row is a two-cell label/value row. -/
theorem mem_directFieldRows_length (f : FormState) (key : SectionKey)
    (r : List String) (h : r ∈ directFieldRows f key) : r.length = 2 := by
  unfold directFieldRows at h
  obtain ⟨k, _, rfl⟩ := List.mem_map.mp h
  rfl

/-- Every row of a point sub-table has at least two cells (the label cell
plus one cell per visible column). -/
theorem mem_pointTable_length (f : FormState) (key : SectionKey)
    (r : List String) (h : r ∈ pointTable f key) : 2 ≤ r.length := by
  unfold pointTable at h
  split at h
  · simp at h
  · rename_i hcols
    have hpos : 0 < (visCols f key).length := List.length_pos.mpr hcols
    rcases List.mem_cons.mp h with rfl | hmem
    · simp only [List.length_cons, List.length_map]
      omega
    · obtain ⟨label, _, rfl⟩ := List.mem_map.mp hmem
      unfold pointRow
      simp only [List.length_cons, List.length_map]
      omega

/-- The blank separator row never occurs inside a stage's content rows. -/
theorem sep_not_mem_content (f : FormState) (d : SectionDef) :
    [""] ∉ ((if d.key = SectionKey.aerobic_upper ∨ d.key = SectionKey.aerobic_lower
        then [] else directFieldRows f d.key) ++
      (if POINT_SECTIONS.contains d.key then pointTable f d.key else [])) := by
  intro hmem
  rcases List.mem_append.mp hmem with h | h
  · split at h
    · simp at h
    · have := mem_directFieldRows_length f d.key [""] h
      simp at this
  · split at h
    · have := mem_pointTable_length f d.key [""] h
      simp at this
    · simp at h

/-- The upper aerobic stage emits no direct rows: its block is the point
sub-table alone. -/
theorem sectionRows_aerobic_upper (f : FormState) :
    sectionRows f ⟨SectionKey.aerobic_upper, "好気性ろ床 上部"⟩ =
      ["【" ++ "好気性ろ床 上部" ++ "】"] ::
        (pointTable f SectionKey.aerobic_upper ++ [[""]]) := by
  unfold sectionRows
  rw [if_pos (Or.inl rfl), if_pos (by decide)]
  rfl

/-- The lower aerobic stage emits no direct rows: its block is the point
sub-table alone. -/
theorem sectionRows_aerobic_lower (f : FormState) :
    sectionRows f ⟨SectionKey.aerobic_lower, "好気性ろ床 下部・処理水"⟩ =
      ["【" ++ "好気性ろ床 下部・処理水" ++ "】"] ::
        (pointTable f SectionKey.aerobic_lower ++ [[""]]) := by
  unfold sectionRows
  rw [if_pos (Or.inr rfl), if_pos (by decide)]
  rfl

/-- C1: the sheet always consists of the ten fixed header label/value rows
(in order, starting with the date and the weekday), a separator, the four
stage blocks in declaration order — each a single-cell bracketed title
row, the stage's content rows (which never contain a separator), and
exactly one separator — and finally the free-note title, the 備考 row and
one last separator. -/
theorem spec_c1_sheet_structure (f : FormState) :
    (toSheetRows f =
      [["日付", f.header.date], ["曜日", f.header.weekday],
       ["天候", f.header.weather], ["外気温(℃)", f.header.airTemp],
       ["初沈界面 NO.1(m)", f.header.primarySettlingNo1],
       ["初沈界面 NO.2(m)", f.header.primarySettlingNo2],
       ["PAC残量(㎥)", f.header.pacRemaining], ["脱離液 pH", f.header.elutionPH],
       ["脱離液 水温(℃)", f.header.elutionTemp],
       ["含水率(%)", f.header.waterContent]] ++ [[""]] ++
      sectionRows f ⟨SectionKey.influent, "流入水"⟩ ++
      sectionRows f ⟨SectionKey.aerobic_upper, "好気性ろ床 上部"⟩ ++
      sectionRows f ⟨SectionKey.aerobic_lower, "好気性ろ床 下部・処理水"⟩ ++
      sectionRows f ⟨SectionKey.effluent, "放流水"⟩ ++
      [["【自由記入 備考】"], ["備考", f.extraNote], [""]]) ∧
    ∀ d : SectionDef, ∃ content : List (List String),
      sectionRows f d = ["【" ++ d.label ++ "】"] :: (content ++ [[""]]) ∧
      [""] ∉ content := by
  constructor
  · simp [toSheetRows, SECTION_DEFS, List.append_assoc]
  · intro d
    refine ⟨(if d.key = SectionKey.aerobic_upper ∨ d.key = SectionKey.aerobic_lower
        then [] else directFieldRows f d.key) ++
      (if POINT_SECTIONS.contains d.key then pointTable f d.key else []),
      ?_, sep_not_mem_content f d⟩
    unfold sectionRows
    rw [List.append_assoc]

/-- C2: in the sheet, each of the two point-bearing stages contributes a
block, between its title row and the following separator, that holds no
direct label/value row: it is empty exactly when no point column is
visible, and otherwise consists of the ポイント header row followed by one
row per configured point, in order, whose first cell is the
display-transformed label and whose other cells are the point's stored
values for the visible columns (missing data rendering as ""). -/
theorem spec_c2_point_stage_blocks (f : FormState) (k : SectionKey)
    (hk : k = SectionKey.aerobic_upper ∨ k = SectionKey.aerobic_lower) :
    ∃ pre post : List (List String),
      toSheetRows f =
        pre ++ (["【" ++ sectionLabel k ++ "】"] ::
          (pointTable f k ++ ([""] :: post))) ∧
      [""] ∉ pointTable f k ∧
      (pointTable f k = [] ↔ visCols f k = []) ∧
      (pointTable f k = [] ∨
        pointTable f k =
          ("ポイント" :: (visCols f k).map FIELD_LABEL) ::
            f.points.map (fun label =>
              displayPointLabel label ::
                (visCols f k).map (fun c =>
                  ((((f.pointData k).getD EMPTY_PDM) label).getD EMPTY_REC c).getD ""))) := by
  have hsep : [""] ∉ pointTable f k := by
    intro hmem
    have := mem_pointTable_length f k [""] hmem
    simp at this
  have hiff : pointTable f k = [] ↔ visCols f k = [] := by
    unfold pointTable
    split
    · rename_i hc
      simp [hc]
    · rename_i hc
      simp [hc]
  have hshape : pointTable f k = [] ∨
      pointTable f k =
        ("ポイント" :: (visCols f k).map FIELD_LABEL) ::
          f.points.map (fun label =>
            displayPointLabel label ::
              (visCols f k).map (fun c =>
                ((((f.pointData k).getD EMPTY_PDM) label).getD EMPTY_REC c).getD "")) := by
    unfold pointTable
    split
    · exact Or.inl rfl
    · exact Or.inr (by simp [pointRow])
  rcases hk with rfl | rfl
  · refine ⟨[["日付", f.header.date], ["曜日", f.header.weekday],
      ["天候", f.header.weather], ["外気温(℃)", f.header.airTemp],
      ["初沈界面 NO.1(m)", f.header.primarySettlingNo1],
      ["初沈界面 NO.2(m)", f.header.primarySettlingNo2],
      ["PAC残量(㎥)", f.header.pacRemaining], ["脱離液 pH", f.header.elutionPH],
      ["脱離液 水温(℃)", f.header.elutionTemp],
      ["含水率(%)", f.header.waterContent], [""]] ++
      sectionRows f ⟨SectionKey.influent, "流入水"⟩,
      sectionRows f ⟨SectionKey.aerobic_lower, "好気性ろ床 下部・処理水"⟩ ++
      sectionRows f ⟨SectionKey.effluent, "放流水"⟩ ++
      [["【自由記入 備考】"], ["備考", f.extraNote], [""]],
      ?_, hsep, hiff, hshape⟩
    simp [toSheetRows, SECTION_DEFS, sectionRows_aerobic_upper, sectionLabel,
      List.append_assoc]
  · refine ⟨[["日付", f.header.date], ["曜日", f.header.weekday],
      ["天候", f.header.weather], ["外気温(℃)", f.header.airTemp],
      ["初沈界面 NO.1(m)", f.header.primarySettlingNo1],
      ["初沈界面 NO.2(m)", f.header.primarySettlingNo2],
      ["PAC残量(㎥)", f.header.pacRemaining], ["脱離液 pH", f.header.elutionPH],
      ["脱離液 水温(℃)", f.header.elutionTemp],
      ["含水率(%)", f.header.waterContent], [""]] ++
      sectionRows f ⟨SectionKey.influent, "流入水"⟩ ++
      sectionRows f ⟨SectionKey.aerobic_upper, "好気性ろ床 上部"⟩,
      sectionRows f ⟨SectionKey.effluent, "放流水"⟩ ++
      [["【自由記入 備考】"], ["備考", f.extraNote], [""]],
      ?_, hsep, hiff, hshape⟩
    simp [toSheetRows, SECTION_DEFS, sectionRows_aerobic_lower, sectionLabel,
      List.append_assoc]

/-- C2, witness at the sample form and the upper aerobic stage. -/
theorem spec_c2_witness :
    ∃ pre post : List (List String),
      toSheetRows sampleForm =
        pre ++ (["【" ++ sectionLabel SectionKey.aerobic_upper ++ "】"] ::
          (pointTable sampleForm SectionKey.aerobic_upper ++ ([""] :: post))) ∧
      [""] ∉ pointTable sampleForm SectionKey.aerobic_upper ∧
      (pointTable sampleForm SectionKey.aerobic_upper = [] ↔
        visCols sampleForm SectionKey.aerobic_upper = []) ∧
      (pointTable sampleForm SectionKey.aerobic_upper = [] ∨
        pointTable sampleForm SectionKey.aerobic_upper =
          ("ポイント" :: (visCols sampleForm SectionKey.aerobic_upper).map FIELD_LABEL) ::
            sampleForm.points.map (fun label =>
              displayPointLabel label ::
                (visCols sampleForm SectionKey.aerobic_upper).map (fun c =>
                  ((((sampleForm.pointData SectionKey.aerobic_upper).getD EMPTY_PDM)
                    label).getD EMPTY_REC c).getD ""))) :=
  spec_c2_point_stage_blocks sampleForm SectionKey.aerobic_upper (Or.inl rfl)

/-- A row of a point-bearing stage's sub-table occurs among the sheet
rows. -/
theorem pointTable_mem_toSheetRows (f : FormState) (k : SectionKey)
    (hk : k = SectionKey.aerobic_upper ∨ k = SectionKey.aerobic_lower)
    (r : List String) (hr : r ∈ pointTable f k) : r ∈ toSheetRows f := by
  have key : ∀ d : SectionDef, d ∈ SECTION_DEFS → r ∈ sectionRows f d →
      r ∈ toSheetRows f := by
    intro d hd hrs
    unfold toSheetRows
    refine List.mem_append_left _ (List.mem_append_right _ ?_)
    exact List.mem_flatten.mpr ⟨sectionRows f d, List.mem_map_of_mem _ hd, hrs⟩
  rcases hk with rfl | rfl
  · refine key ⟨SectionKey.aerobic_upper, "好気性ろ床 上部"⟩ (by simp [SECTION_DEFS]) ?_
    rw [sectionRows_aerobic_upper]
    exact List.mem_cons_of_mem _ (List.mem_append_left _ hr)
  · refine key ⟨SectionKey.aerobic_lower, "好気性ろ床 下部・処理水"⟩ (by simp [SECTION_DEFS]) ?_
    rw [sectionRows_aerobic_lower]
    exact List.mem_cons_of_mem _ (List.mem_append_left _ hr)

/-- C10: point values are looked up under the original label; when the
point-data map has nothing under the original label (for example because
the data sits only under the display-transformed key), the emitted row
shows the transformed label followed by an empty string for every visible
column — and that all-empty row is what appears among the sheet rows. -/
theorem spec_c10_original_key_lookup (f : FormState) (k : SectionKey)
    (label : String)
    (hk : k = SectionKey.aerobic_upper ∨ k = SectionKey.aerobic_lower)
    (h : ((f.pointData k).getD EMPTY_PDM) label = none) :
    pointRow f k label =
      displayPointLabel label :: (visCols f k).map (fun _ => "") ∧
    (label ∈ f.points → visCols f k ≠ [] →
      pointRow f k label ∈ toSheetRows f) := by
  constructor
  · unfold pointRow
    simp only [h, Option.getD_none]
    rfl
  · intro hmem hcols
    refine pointTable_mem_toSheetRows f k hk _ ?_
    unfold pointTable
    rw [if_neg hcols]
    exact List.mem_cons_of_mem _ (List.mem_map_of_mem _ hmem)

/-- C10, witness: the sample form stores a reading only under the
transformed key No.1-1; the row emitted for the configured point NO.1-1
is all-empty and still appears in the sheet. -/
theorem spec_c10_witness :
    pointRow sampleForm SectionKey.aerobic_upper "NO.1-1" =
      displayPointLabel "NO.1-1" ::
        (visCols sampleForm SectionKey.aerobic_upper).map (fun _ => "") ∧
    pointRow sampleForm SectionKey.aerobic_upper "NO.1-1" ∈
      toSheetRows sampleForm := by
  have h : ((sampleForm.pointData SectionKey.aerobic_upper).getD EMPTY_PDM)
      "NO.1-1" = none := by
    show samplePD "NO.1-1" = none
    unfold samplePD
    rw [if_neg (by decide)]
  have hc := spec_c10_original_key_lookup sampleForm SectionKey.aerobic_upper
    "NO.1-1" (Or.inl rfl) h
  exact ⟨hc.1, hc.2 (by simp [sampleForm]) (by decide)⟩

/-! # Archive store: lemmas and claims C5, C7 -/

/-- Upserting a key and reading it back yields the stored snapshot. -/
theorem getKey_setKey_same (a : ArchiveMap) (d : String) (s : FormState) :
    getKey (setKey a d s) d = some s := by
  induction a with
  | nil => simp [setKey, getKey]
  | cons kv rest ih =>
    obtain ⟨k, v⟩ := kv
    unfold setKey
    by_cases h : k = d
    · rw [if_pos h]
      unfold getKey
      rw [if_pos rfl]
    · rw [if_neg h]
      unfold getKey
      rw [if_neg h]
      exact ih

/-- Upserting a key leaves every other key's entry unchanged. -/
theorem getKey_setKey_other (a : ArchiveMap) (d d' : String) (s : FormState)
    (h : d' ≠ d) : getKey (setKey a d s) d' = getKey a d' := by
  induction a with
  | nil =>
    unfold setKey getKey
    rw [if_neg (fun hdd => h hdd.symm)]
    rfl
  | cons kv rest ih =>
    obtain ⟨k, v⟩ := kv
    unfold setKey
    by_cases hk : k = d
    · rw [if_pos hk]
      unfold getKey
      rw [if_neg (fun hdd => h hdd.symm), if_neg (fun hkd => h (hk ▸ hkd).symm)]
    · rw [if_neg hk]
      unfold getKey
      by_cases hk' : k = d'
      · rw [if_pos hk', if_pos hk']
      · rw [if_neg hk', if_neg hk']
        exact ih

/-- After a successful save, reading the archive yields the upserted
map. -/
theorem readArchive_onSave (st : ArchiveStore) (s : FormState)
    (hA : st.available = true) (hW : st.writeOk = true) :
    readArchive (onSave st s) =
      setKey (readArchive st) s.header.date s := by
  unfold onSave writeArchive
  rw [hA, hW]
  simp [readArchive, hA]

/-- C5: on a working store, saving a form and loading its header date
returns a snapshot equal to the saved form — saving under a blank or
already-used date silently overwrites that key — and every other date's
entry is untouched. -/
theorem spec_c5_archive_roundtrip (st : ArchiveStore) (s : FormState)
    (hA : st.available = true) (hW : st.writeOk = true) :
    loadSnap (onSave st s) s.header.date = some s ∧
    ∀ d : String, d ≠ s.header.date → loadSnap (onSave st s) d = loadSnap st d := by
  constructor
  · unfold loadSnap
    rw [readArchive_onSave st s hA hW]
    exact getKey_setKey_same _ _ _
  · intro d hd
    unfold loadSnap
    rw [readArchive_onSave st s hA hW]
    exact getKey_setKey_other _ _ _ _ hd

/-- C5, witness: the round trip at a concrete healthy store and form. -/
theorem spec_c5_witness :
    loadSnap (onSave sampleStore sampleForm) sampleForm.header.date =
      some sampleForm :=
  (spec_c5_archive_roundtrip sampleStore sampleForm rfl rfl).1

/-- C7: storage failures never surface — with an unavailable backend the
read returns the empty map and the write is a no-op; a malformed or
absent payload reads as the empty map; a failing write (quota) leaves the
store untouched.  Both operations are total functions of the store state:
no exception escapes. -/
theorem spec_c7_failures_swallowed (st : ArchiveStore) (a : ArchiveMap) :
    (st.available = false → readArchive st = [] ∧ writeArchive a st = st) ∧
    (st.payload = StorePayload.malformed → readArchive st = []) ∧
    (st.payload = StorePayload.absent → readArchive st = []) ∧
    (st.writeOk = false → writeArchive a st = st) := by
  refine ⟨fun h => ⟨?_, ?_⟩, fun h => ?_, fun h => ?_, fun h => ?_⟩
  · simp [readArchive, h]
  · simp [writeArchive, h]
  · simp [readArchive, h]
  · simp [readArchive, h]
  · simp [writeArchive, h]

/-- C7, witness: a store whose backend throws reads as empty and ignores
writes. -/
theorem spec_c7_witness :
    readArchive downStore = [] ∧ writeArchive [] downStore = downStore :=
  (spec_c7_failures_swallowed downStore []).1 rfl

/-! # Date listing: order lemmas and claim C6 -/

/-- Unfolding step of lexLe on two nonempty lists. -/
theorem lexLe_cons (x y : Char) (xs ys : List Char) :
    lexLe (x :: xs) (y :: ys) =
      if x.toNat < y.toNat then true
      else if y.toNat < x.toNat then false
      else lexLe xs ys := rfl

/-- Equal heads are skipped by lexLe. -/
theorem lexLe_cons_self (c : Char) (xs ys : List Char) :
    lexLe (c :: xs) (c :: ys) = lexLe xs ys := by
  rw [lexLe_cons, if_neg (Nat.lt_irrefl _), if_neg (Nat.lt_irrefl _)]

/-- lexLe is total. -/
theorem lexLe_total : ∀ xs ys : List Char,
    lexLe xs ys = true ∨ lexLe ys xs = true := by
  intro xs
  induction xs with
  | nil => intro ys; exact Or.inl rfl
  | cons x xs ih =>
    intro ys
    cases ys with
    | nil => exact Or.inr rfl
    | cons y ys =>
      rw [lexLe_cons, lexLe_cons]
      rcases Nat.lt_trichotomy x.toNat y.toNat with h | h | h
      · left
        rw [if_pos h]
      · rcases ih ys with h2 | h2
        · left
          rw [if_neg (by omega), if_neg (by omega)]
          exact h2
        · right
          rw [if_neg (by omega), if_neg (by omega)]
          exact h2
      · right
        rw [if_pos h]

/-- lexLe is transitive. -/
theorem lexLe_trans : ∀ xs ys zs : List Char,
    lexLe xs ys = true → lexLe ys zs = true → lexLe xs zs = true := by
  intro xs
  induction xs with
  | nil => intro ys zs h1 h2; rfl
  | cons x xs ih =>
    intro ys zs h1 h2
    cases ys with
    | nil => exact absurd h1 (by simp [lexLe])
    | cons y ys =>
      cases zs with
      | nil => exact absurd h2 (by simp [lexLe])
      | cons z zs =>
        rw [lexLe_cons] at h1 h2 ⊢
        split_ifs at h1 h2 ⊢ <;>
          first
            | rfl
            | exact ih ys zs h1 h2
            | exact absurd h1 Bool.false_ne_true
            | exact absurd h2 Bool.false_ne_true
            | (exfalso; omega)

instance : IsTotal String strLe :=
  ⟨fun a b => lexLe_total a.data b.data⟩

instance : IsTrans String strLe :=
  ⟨fun _ _ _ h1 h2 => lexLe_trans _ _ _ h1 h2⟩

/-- A digit character's code sits between 48 and 57. -/
theorem isDig_bounds (c : Char) (h : isDig c = true) :
    48 ≤ c.toNat ∧ c.toNat ≤ 57 := by
  unfold isDig at h
  simpa using h

/-- A character list passing isYMDl has exactly the shape
digit digit digit digit dash digit digit dash digit digit. -/
theorem isYMDl_shape (l : List Char) (h : isYMDl l = true) :
    ∃ y1 y2 y3 y4 m1 m2 d1 d2 : Char,
      l = [y1, y2, y3, y4, '-', m1, m2, '-', d1, d2] ∧
      isDig y1 = true ∧ isDig y2 = true ∧ isDig y3 = true ∧ isDig y4 = true ∧
      isDig m1 = true ∧ isDig m2 = true ∧ isDig d1 = true ∧ isDig d2 = true := by
  obtain _ | ⟨y1, l⟩ := l
  · simp [isYMDl] at h
  obtain _ | ⟨y2, l⟩ := l
  · simp [isYMDl] at h
  obtain _ | ⟨y3, l⟩ := l
  · simp [isYMDl] at h
  obtain _ | ⟨y4, l⟩ := l
  · simp [isYMDl] at h
  obtain _ | ⟨s1, l⟩ := l
  · simp [isYMDl] at h
  obtain _ | ⟨m1, l⟩ := l
  · simp [isYMDl] at h
  obtain _ | ⟨m2, l⟩ := l
  · simp [isYMDl] at h
  obtain _ | ⟨s2, l⟩ := l
  · simp [isYMDl] at h
  obtain _ | ⟨d1, l⟩ := l
  · simp [isYMDl] at h
  obtain _ | ⟨d2, l⟩ := l
  · simp [isYMDl] at h
  obtain _ | ⟨c, l⟩ := l
  · simp only [isYMDl, Bool.and_eq_true, beq_iff_eq, and_assoc] at h
    obtain ⟨h1, h2, h3, h4, hs1, h5, h6, hs2, h7, h8⟩ := h
    exact ⟨y1, y2, y3, y4, m1, m2, d1, d2, by rw [hs1, hs2],
      h1, h2, h3, h4, h5, h6, h7, h8⟩
  · simp [isYMDl] at h

/-- Unfolding of dateVall on a ten-character list. -/
theorem dateVall_eq (y1 y2 y3 y4 s1 m1 m2 s2 d1 d2 : Char) :
    dateVall [y1, y2, y3, y4, s1, m1, m2, s2, d1, d2] =
      (y1.toNat - 48) * 10000000 + (y2.toNat - 48) * 1000000 +
      (y3.toNat - 48) * 100000 + (y4.toNat - 48) * 10000 +
      (m1.toNat - 48) * 1000 + (m2.toNat - 48) * 100 +
      (d1.toNat - 48) * 10 + (d2.toNat - 48) := rfl

set_option maxHeartbeats 1000000 in
/-- On YYYY-MM-DD shaped character lists, the code-unit order is exactly
the chronological order of the date values. -/
theorem ymd_lexLe_iff (la lb : List Char) (ha : isYMDl la = true)
    (hb : isYMDl lb = true) :
    (lexLe la lb = true ↔ dateVall la ≤ dateVall lb) := by
  obtain ⟨a1, a2, a3, a4, a5, a6, a7, a8, rfl,
    ha1, ha2, ha3, ha4, ha5, ha6, ha7, ha8⟩ := isYMDl_shape la ha
  obtain ⟨b1, b2, b3, b4, b5, b6, b7, b8, rfl,
    hb1, hb2, hb3, hb4, hb5, hb6, hb7, hb8⟩ := isYMDl_shape lb hb
  obtain ⟨la1, ra1⟩ := isDig_bounds a1 ha1
  obtain ⟨la2, ra2⟩ := isDig_bounds a2 ha2
  obtain ⟨la3, ra3⟩ := isDig_bounds a3 ha3
  obtain ⟨la4, ra4⟩ := isDig_bounds a4 ha4
  obtain ⟨la5, ra5⟩ := isDig_bounds a5 ha5
  obtain ⟨la6, ra6⟩ := isDig_bounds a6 ha6
  obtain ⟨la7, ra7⟩ := isDig_bounds a7 ha7
  obtain ⟨la8, ra8⟩ := isDig_bounds a8 ha8
  obtain ⟨lb1, rb1⟩ := isDig_bounds b1 hb1
  obtain ⟨lb2, rb2⟩ := isDig_bounds b2 hb2
  obtain ⟨lb3, rb3⟩ := isDig_bounds b3 hb3
  obtain ⟨lb4, rb4⟩ := isDig_bounds b4 hb4
  obtain ⟨lb5, rb5⟩ := isDig_bounds b5 hb5
  obtain ⟨lb6, rb6⟩ := isDig_bounds b6 hb6
  obtain ⟨lb7, rb7⟩ := isDig_bounds b7 hb7
  obtain ⟨lb8, rb8⟩ := isDig_bounds b8 hb8
  rw [dateVall_eq, dateVall_eq]
  rw [lexLe_cons]
  rcases Nat.lt_trichotomy a1.toNat b1.toNat with h1 | h1 | h1
  · rw [if_pos h1]
    exact iff_of_true rfl (by omega)
  rotate_left
  · rw [if_neg (by omega), if_pos h1]
    exact iff_of_false Bool.false_ne_true (by omega)
  rw [if_neg (by omega), if_neg (by omega), lexLe_cons]
  rcases Nat.lt_trichotomy a2.toNat b2.toNat with h2 | h2 | h2
  · rw [if_pos h2]
    exact iff_of_true rfl (by omega)
  rotate_left
  · rw [if_neg (by omega), if_pos h2]
    exact iff_of_false Bool.false_ne_true (by omega)
  rw [if_neg (by omega), if_neg (by omega), lexLe_cons]
  rcases Nat.lt_trichotomy a3.toNat b3.toNat with h3 | h3 | h3
  · rw [if_pos h3]
    exact iff_of_true rfl (by omega)
  rotate_left
  · rw [if_neg (by omega), if_pos h3]
    exact iff_of_false Bool.false_ne_true (by omega)
  rw [if_neg (by omega), if_neg (by omega), lexLe_cons]
  rcases Nat.lt_trichotomy a4.toNat b4.toNat with h4 | h4 | h4
  · rw [if_pos h4]
    exact iff_of_true rfl (by omega)
  rotate_left
  · rw [if_neg (by omega), if_pos h4]
    exact iff_of_false Bool.false_ne_true (by omega)
  rw [if_neg (by omega), if_neg (by omega), lexLe_cons_self, lexLe_cons]
  rcases Nat.lt_trichotomy a5.toNat b5.toNat with h5 | h5 | h5
  · rw [if_pos h5]
    exact iff_of_true rfl (by omega)
  rotate_left
  · rw [if_neg (by omega), if_pos h5]
    exact iff_of_false Bool.false_ne_true (by omega)
  rw [if_neg (by omega), if_neg (by omega), lexLe_cons]
  rcases Nat.lt_trichotomy a6.toNat b6.toNat with h6 | h6 | h6
  · rw [if_pos h6]
    exact iff_of_true rfl (by omega)
  rotate_left
  · rw [if_neg (by omega), if_pos h6]
    exact iff_of_false Bool.false_ne_true (by omega)
  rw [if_neg (by omega), if_neg (by omega), lexLe_cons_self, lexLe_cons]
  rcases Nat.lt_trichotomy a7.toNat b7.toNat with h7 | h7 | h7
  · rw [if_pos h7]
    exact iff_of_true rfl (by omega)
  rotate_left
  · rw [if_neg (by omega), if_pos h7]
    exact iff_of_false Bool.false_ne_true (by omega)
  rw [if_neg (by omega), if_neg (by omega), lexLe_cons]
  rcases Nat.lt_trichotomy a8.toNat b8.toNat with h8 | h8 | h8
  · rw [if_pos h8]
    exact iff_of_true rfl (by omega)
  rotate_left
  · rw [if_neg (by omega), if_pos h8]
    exact iff_of_false Bool.false_ne_true (by omega)
  rw [if_neg (by omega), if_neg (by omega)]
  exact iff_of_true rfl (by omega)

/-- C6: the listed dates are a permutation of the stored keys, they are
pairwise descending in the code-unit string order, and for keys in the
fixed YYYY-MM-DD format that order coincides with descending chronological
order. -/
theorem spec_c6_listDates (st : ArchiveStore) :
    (listArchiveDates st).Perm ((readArchive st).map Prod.fst) ∧
    (listArchiveDates st).Pairwise (fun a b => lexLe b.data a.data = true) ∧
    (listArchiveDates st).Pairwise (fun a b =>
      isYMD a = true → isYMD b = true → dateValue b ≤ dateValue a) := by
  have hdesc : (listArchiveDates st).Pairwise
      (fun a b => lexLe b.data a.data = true) := by
    unfold listArchiveDates
    rw [List.pairwise_reverse]
    exact List.sorted_insertionSort strLe ((readArchive st).map Prod.fst)
  refine ⟨?_, hdesc, ?_⟩
  · exact (List.reverse_perm _).trans
      (List.perm_insertionSort strLe ((readArchive st).map Prod.fst))
  · refine hdesc.imp ?_
    intro a b hab ha hb
    exact (ymd_lexLe_iff b.data a.data hb ha).mp hab

/-- C6, witness at a concrete two-entry store. -/
theorem spec_c6_witness :
    (listArchiveDates dateStore).Perm
      ((readArchive dateStore).map Prod.fst) ∧
    (listArchiveDates dateStore).Pairwise
      (fun a b => lexLe b.data a.data = true) ∧
    (listArchiveDates dateStore).Pairwise (fun a b =>
      isYMD a = true → isYMD b = true → dateValue b ≤ dateValue a) :=
  spec_c6_listDates dateStore
